import Mathlib

/-!
Shallow embedding of the TOYBOX MCP server configuration subsystem:
`src/dist/services/config.js` (ConfigService) together with the schema
and default factory of `src/src/types/config.ts`.

Modelling conventions:
* ISO-8601 timestamp strings are modelled as `Nat` (ISO-8601 UTC strings
  compare lexicographically exactly as their instants compare, so order
  facts transfer).
* Zod's `z.record(z.unknown())` metadata is modelled as an association
  list of strings; its values are never interpreted by the code.
* The state of the file at the config path is a `FileState`: absent,
  bytes that are not JSON (`JSON.parse` throws), JSON that fails
  `ToyboxConfigSchema.parse` (a `ZodError`), or a document validating to
  a `ToyboxConfig`.  Write-then-rename is atomic, so no partial-file
  state is needed.  I/O failures (permissions, disk full) are outside
  the model.
* `new Date().toISOString()` at a call is passed in as an explicit
  `now : Nat` argument.
* `process.env` (TOYBOX_DEBUG, TOYBOX_LOCAL_TEMPLATE_PATH), consulted
  only by `createDefaultConfig`, is an explicit `Env` argument.
-/

namespace Toybox

/-- Preferences object of `ToyboxConfigSchema` (config.ts lines 29-33). -/
structure Preferences where
  defaultRepoName : String
  autoCommit : Bool
  commitMessage : String
deriving Repr, DecidableEq

/-- One repository record, `ToyboxRepoConfigSchema` (config.ts lines 6-15).
`remoteUrl`, `publishedUrl`, `metadata` are optional. -/
structure ToyboxRepoConfig where
  name : String
  localPath : String
  remoteUrl : Option String
  publishedUrl : Option String
  createdAt : Nat
  lastUsedAt : Nat
  isActive : Bool
  metadata : Option (List (String × String))
deriving Repr, DecidableEq

/-- The whole persisted document, `ToyboxConfigSchema` (config.ts lines 22-34). -/
structure ToyboxConfig where
  version : String
  repositories : List ToyboxRepoConfig
  activeRepository : Option String
  debug : Bool
  localTemplatePath : Option String
  lastUpdated : Nat
  preferences : Preferences
deriving Repr, DecidableEq

/-- The `CONFIG_VERSION` constant (config.ts line 60). -/
def CONFIG_VERSION : String := "1.0.0"

/-- The two process-environment inputs read by `createDefaultConfig`:
the comparison of `process.env.TOYBOX_DEBUG` against the string true
already evaluated to a Bool, and
`process.env.TOYBOX_LOCAL_TEMPLATE_PATH`. -/
structure Env where
  debugFlag : Bool
  templatePath : Option String
deriving Repr, DecidableEq

/-- Model of `createDefaultConfig` (config.ts lines 41-54); `now` models
`new Date().toISOString()`. -/
def createDefaultConfig (env : Env) (now : Nat) : ToyboxConfig :=
  { version := "1.0.0"
    repositories := []
    activeRepository := none
    debug := env.debugFlag
    localTemplatePath := env.templatePath
    lastUpdated := now
    preferences :=
      { defaultRepoName := "toybox"
        autoCommit := true
        commitMessage := "feat: Add new artifact via TOYBOX" } }

/-- State of the file at the config path. -/
inductive FileState where
  | absent : FileState
  | invalidJson : FileState
  | badSchema : FileState
  | valid (c : ToyboxConfig) : FileState
deriving Repr, DecidableEq

/-- Model of `ConfigService.migrate` (config.js lines 228-239): stamp `version`
to `CONFIG_VERSION` when it differs; no other transform exists. -/
def migrate (c : ToyboxConfig) : ToyboxConfig :=
  if c.version ≠ CONFIG_VERSION then { c with version := CONFIG_VERSION } else c

/-- Model of `ConfigService.write` (config.js lines 58-78): sets `lastUpdated` to
now, re-validates (always succeeds on a well-typed document), serializes
to a temp file and atomically renames it over the config path.  The
resulting file state holds the stamped document. -/
def writeSvc (c : ToyboxConfig) (now : Nat) : FileState :=
  FileState.valid { c with lastUpdated := now }

/-- The document `write` leaves on disk (and, because `write` mutates the
caller-supplied object in place, also the value the caller retains). -/
def stamped (c : ToyboxConfig) (now : Nat) : ToyboxConfig :=
  { c with lastUpdated := now }

/-- Error message of the generic rethrow in `read` (config.js line 51);
the source appends the underlying cause. -/
def readFailMsg : String := "Failed to read configuration"

/-- Error-message wrapper of `update` (config.js line 106). -/
def updateFailMsg (msg : String) : String :=
  "Failed to update configuration: " ++ msg

/-- Model of `ConfigService.read` (config.js lines 24-53), as a function of the
file state, returning the result handed to the caller together with the
file state after the call.
* absent file: write a default document and return it;
* bytes that are not JSON: `JSON.parse` throws a SyntaxError, which is
  NOT a `z.ZodError`, so the catch rethrows a read failure and nothing
  is written;
* JSON failing schema validation: `z.ZodError` branch writes a default
  document and returns it;
* valid document: return it after `migrate`, without writing. -/
def readSvc (env : Env) (fs : FileState) (now : Nat) :
    Except String ToyboxConfig × FileState :=
  match fs with
  | FileState.absent =>
      (Except.ok (createDefaultConfig env now),
       writeSvc (createDefaultConfig env now) now)
  | FileState.invalidJson => (Except.error readFailMsg, FileState.invalidJson)
  | FileState.badSchema =>
      (Except.ok (createDefaultConfig env now),
       writeSvc (createDefaultConfig env now) now)
  | FileState.valid c => (Except.ok (migrate c), FileState.valid c)

/-- Model of `ConfigService.update` (config.js lines 82-114).  Locking is a
no-op in this sequential model; what remains is the control flow:
* file absent: `lockfile.lock` throws ENOENT, the catch applies the
  updater to a fresh default document and writes the result (an error
  thrown by the updater there propagates unwrapped);
* otherwise: `read()` (which may itself repair a schema-invalid file),
  apply the updater, `write` the result; an updater error is wrapped
  and rethrown without writing. -/
def updateSvc (env : Env) (fs : FileState)
    (fn : ToyboxConfig → Except String ToyboxConfig) (now : Nat) :
    Except String ToyboxConfig × FileState :=
  match fs with
  | FileState.absent =>
      match fn (createDefaultConfig env now) with
      | Except.ok c2 => (Except.ok (stamped c2 now), writeSvc c2 now)
      | Except.error e => (Except.error e, FileState.absent)
  | FileState.invalidJson =>
      (Except.error (updateFailMsg readFailMsg), FileState.invalidJson)
  | FileState.badSchema =>
      match fn (createDefaultConfig env now) with
      | Except.ok c2 =>
          (Except.ok (stamped c2 now), writeSvc c2 now)
      | Except.error e =>
          (Except.error (updateFailMsg e),
           writeSvc (createDefaultConfig env now) now)
  | FileState.valid c =>
      match fn (migrate c) with
      | Except.ok c2 => (Except.ok (stamped c2 now), writeSvc c2 now)
      | Except.error e => (Except.error (updateFailMsg e), FileState.valid c)

/-- Model of `ConfigService.getActiveRepository` (config.js lines 118-126), the
pure resolution step on an in-memory document.  The guard in the source
is `if (!config.activeRepository)`: a pointer that is `undefined` OR the
empty string (both falsy in JavaScript) selects the fallback scan for a
record with `isActive`; otherwise the pointer name is looked up and a
miss yields null. -/
def getActiveRepo (c : ToyboxConfig) : Option ToyboxRepoConfig :=
  match c.activeRepository with
  | none => c.repositories.find? (fun r => r.isActive)
  | some n =>
      if n = "" then c.repositories.find? (fun r => r.isActive)
      else c.repositories.find? (fun r => r.name == n)

/-- Replace the first element satisfying `p` by its image under `f`;
leaves the list unchanged when nothing matches.  This is JavaScript
`findIndex` followed by assignment at that index (or `find` followed by
mutation of the found object). -/
def updateFirst (p : α → Bool) (f : α → α) : List α → List α
  | [] => []
  | x :: xs => if p x then f x :: xs else x :: updateFirst p f xs

/-- The object spread merging `repo` over the existing record with
`lastUsedAt` refreshed, from the update branch of
`upsertRepository` (config.js lines 153-157).  The call sites build the
argument with every required property present, so required fields come
from `repo`; an optional field modelled as `none` stands for an absent
property, which leaves the existing value in place. -/
def mergeRepo (old repo : ToyboxRepoConfig) (now : Nat) : ToyboxRepoConfig :=
  { name := repo.name
    localPath := repo.localPath
    remoteUrl := repo.remoteUrl.orElse (fun _ => old.remoteUrl)
    publishedUrl := repo.publishedUrl.orElse (fun _ => old.publishedUrl)
    createdAt := repo.createdAt
    lastUsedAt := now
    isActive := repo.isActive
    metadata := repo.metadata.orElse (fun _ => old.metadata) }

/-- Model of `config.repositories[0].isActive = true` (config.js line 170). -/
def setHeadActive : List ToyboxRepoConfig → List ToyboxRepoConfig
  | [] => []
  | r :: rest => { r with isActive := true } :: rest

/-- The repositories array after the two branches of
`upsertRepository` (config.js lines 150-166): `findIndex >= 0`
(modelled by `any`) selects the update branch, which rewrites the first
record with the same name; otherwise the record is appended with
`lastUsedAt := now` (the source also defaults `createdAt` via
`repo.createdAt || now`, which differs only when `createdAt` is the
empty string, not a timestamp). -/
def upsertRepoList (repo : ToyboxRepoConfig) (now : Nat)
    (l : List ToyboxRepoConfig) : List ToyboxRepoConfig :=
  if l.any (fun r => r.name == repo.name) then
    updateFirst (fun r => r.name == repo.name)
      (fun r => mergeRepo r repo now) l
  else
    l ++ [{ repo with lastUsedAt := now }]

/-- The updater closure of `ConfigService.upsertRepository`
(config.js lines 149-173): update or insert the record, then, when
exactly one record is present afterwards (config.js line 168), make it
active (flag at index 0 and pointer). -/
def upsertRepo (repo : ToyboxRepoConfig) (now : Nat) (c : ToyboxConfig) :
    ToyboxConfig :=
  if (upsertRepoList repo now c.repositories).length == 1 then
    { c with repositories := setHeadActive (upsertRepoList repo now c.repositories)
             activeRepository := some repo.name }
  else
    { c with repositories := upsertRepoList repo now c.repositories }

/-- The updater closure of `ConfigService.setActiveRepository`
(config.js lines 131-143): require a record with the name to exist
(throwing otherwise), then set every record's flag to
`name == repoName` and the pointer to the name. -/
def setActiveRepo (repoName : String) (c : ToyboxConfig) :
    Except String ToyboxConfig :=
  if c.repositories.any (fun r => r.name == repoName) then
    Except.ok
      { c with
          repositories :=
            c.repositories.map (fun r => { r with isActive := r.name == repoName })
          activeRepository := some repoName }
  else
    Except.error ("Repository " ++ repoName ++ " not found in configuration")

/-- The updater closure of `ConfigService.removeRepository`
(config.js lines 179-191): filter out records with the name
(`r.name !== repoName`); when the pointer equalled the removed name,
clear it and, if records remain, promote the first remaining record
(flag at index 0 and pointer). -/
def removeRepo (repoName : String) (c : ToyboxConfig) : ToyboxConfig :=
  if c.activeRepository == some repoName then
    match c.repositories.filter (fun r => r.name != repoName) with
    | [] => { c with repositories := [], activeRepository := none }
    | r :: rest =>
        { c with repositories := { r with isActive := true } :: rest
                 activeRepository := some r.name }
  else
    { c with repositories := c.repositories.filter (fun r => r.name != repoName) }

/-- The updater closure of `ConfigService.touchRepository`
(config.js lines 204-210): refresh `lastUsedAt` on the first record
with the name; no-op when absent. -/
def touchRepo (repoName : String) (now : Nat) (c : ToyboxConfig) :
    ToyboxConfig :=
  { c with
      repositories :=
        updateFirst (fun r => r.name == repoName)
          (fun r => { r with lastUsedAt := now }) c.repositories }

/-- A `Partial<ToyboxRepoConfig>`: each field either absent or supplying
a new value (for the optional fields a new optional value). -/
structure RepoUpdate where
  name : Option String
  localPath : Option String
  remoteUrl : Option (Option String)
  publishedUrl : Option (Option String)
  createdAt : Option Nat
  lastUsedAt : Option Nat
  isActive : Option Bool
  metadata : Option (Option (List (String × String)))
deriving Repr, DecidableEq

/-- The empty partial update (no properties present). -/
def RepoUpdate.empty : RepoUpdate :=
  { name := none, localPath := none, remoteUrl := none, publishedUrl := none
    createdAt := none, lastUsedAt := none, isActive := none, metadata := none }

/-- Model of `Object.assign(repo, updates)` followed by `repo.lastUsedAt = now`
(config.js lines 219-220): present properties overwrite, then
`lastUsedAt` is unconditionally refreshed. -/
def applyRepoUpdate (r : ToyboxRepoConfig) (u : RepoUpdate) (now : Nat) :
    ToyboxRepoConfig :=
  { name := u.name.getD r.name
    localPath := u.localPath.getD r.localPath
    remoteUrl := u.remoteUrl.getD r.remoteUrl
    publishedUrl := u.publishedUrl.getD r.publishedUrl
    createdAt := u.createdAt.getD r.createdAt
    lastUsedAt := now
    isActive := u.isActive.getD r.isActive
    metadata := u.metadata.getD r.metadata }

/-- The updater closure of `ConfigService.updateRepository`
(config.js lines 216-223): merge the given fields onto the first record
with the name and refresh `lastUsedAt`; no-op when absent. -/
def updateRepoFields (repoName : String) (u : RepoUpdate) (now : Nat)
    (c : ToyboxConfig) : ToyboxConfig :=
  { c with
      repositories :=
        updateFirst (fun r => r.name == repoName)
          (fun r => applyRepoUpdate r u now) c.repositories }

/-- Model of `ConfigService.upsertRepository` (config.js lines 148-174) at the
service level: the pure updater run through `update`. -/
def upsertRepository (env : Env) (fs : FileState) (repo : ToyboxRepoConfig)
    (now : Nat) : Except String ToyboxConfig × FileState :=
  updateSvc env fs (fun c => Except.ok (upsertRepo repo now c)) now

/-- Model of `ConfigService.setActiveRepository` (config.js lines 130-144) at the
service level. -/
def setActiveRepository (env : Env) (fs : FileState) (repoName : String)
    (now : Nat) : Except String ToyboxConfig × FileState :=
  updateSvc env fs (setActiveRepo repoName) now

/-- Model of `ConfigService.removeRepository` (config.js lines 178-192) at the
service level. -/
def removeRepository (env : Env) (fs : FileState) (repoName : String)
    (now : Nat) : Except String ToyboxConfig × FileState :=
  updateSvc env fs (fun c => Except.ok (removeRepo repoName c)) now

/-- Model of `ConfigService.touchRepository` (config.js lines 203-211) at the
service level. -/
def touchRepository (env : Env) (fs : FileState) (repoName : String)
    (now : Nat) : Except String ToyboxConfig × FileState :=
  updateSvc env fs (fun c => Except.ok (touchRepo repoName now c)) now

/-- Model of `ConfigService.updateRepository` (config.js lines 215-224) at the
service level. -/
def updateRepository (env : Env) (fs : FileState) (repoName : String)
    (u : RepoUpdate) (now : Nat) : Except String ToyboxConfig × FileState :=
  updateSvc env fs (fun c => Except.ok (updateRepoFields repoName u now c)) now

/-- Model of `ConfigService.getActiveRepository` (config.js lines 118-126) at the
service level: a `read` followed by the pure resolution step. -/
def getActiveRepository (env : Env) (fs : FileState) (now : Nat) :
    Except String (Option ToyboxRepoConfig) × FileState :=
  match readSvc env fs now with
  | (Except.ok c, fs2) => (Except.ok (getActiveRepo c), fs2)
  | (Except.error e, fs2) => (Except.error e, fs2)

/-- Model of `ConfigService.getRepositories` (config.js lines 196-199). -/
def getRepositories (env : Env) (fs : FileState) (now : Nat) :
    Except String (List ToyboxRepoConfig) × FileState :=
  match readSvc env fs now with
  | (Except.ok c, fs2) => (Except.ok c.repositories, fs2)
  | (Except.error e, fs2) => (Except.error e, fs2)

/-! ## The at-most-one-active invariant -/

/-- The names of the registered repositories, in order. -/
def repoNames (c : ToyboxConfig) : List String :=
  c.repositories.map (fun r => r.name)

/-- Number of records whose `isActive` flag is set. -/
def activeCount (c : ToyboxConfig) : Nat :=
  c.repositories.countP (fun r => r.isActive)

/-- Every record with a set `isActive` flag is the one the
`activeRepository` pointer names. -/
def FlagMatchesPointer (c : ToyboxConfig) : Prop :=
  ∀ r ∈ c.repositories, r.isActive = true → c.activeRepository = some r.name

/-- A set `activeRepository` pointer names some registered record. -/
def PointerResolves (c : ToyboxConfig) : Prop :=
  ∀ n, c.activeRepository = some n → n ∈ repoNames c

/-- The registry invariant maintained (for flag-free upsert arguments)
by the mutating operations: unique names, at most one `isActive` flag,
any set flag agrees with the pointer, and a set pointer resolves. -/
def InvConfig (c : ToyboxConfig) : Prop :=
  (repoNames c).Nodup ∧ activeCount c ≤ 1 ∧
    FlagMatchesPointer c ∧ PointerResolves c

/-! ## Sequences of registry calls -/

/-- One call of the three registry mutators named by the at-most-one
active property, with the wall-clock time of the call. -/
inductive C2Op where
  | upsert (repo : ToyboxRepoConfig) (t : Nat) : C2Op
  | setActive (n : String) (t : Nat) : C2Op
  | remove (n : String) (t : Nat) : C2Op
deriving Repr, DecidableEq

/-- Effect of one registry call on the persisted file. -/
def applyC2Op (env : Env) (fs : FileState) : C2Op → FileState
  | C2Op.upsert r t => (upsertRepository env fs r t).2
  | C2Op.setActive n t => (setActiveRepository env fs n t).2
  | C2Op.remove n t => (removeRepository env fs n t).2

/-- Effect of a sequence of registry calls on the persisted file. -/
def runC2 (env : Env) : FileState → List C2Op → FileState
  | fs, [] => fs
  | fs, op :: ops => runC2 env (applyC2Op env fs op) ops

/-- A call whose upsert argument does not carry a set `isActive`
flag (the names passed to setActive/remove are unrestricted). -/
def benignOp : C2Op → Bool
  | C2Op.upsert r _ => !r.isActive
  | C2Op.setActive _ _ => true
  | C2Op.remove _ _ => true

/-- Registry invariant on a file state: any validating document on
disk satisfies `InvConfig`. -/
def InvFS : FileState → Prop
  | FileState.valid c => InvConfig c
  | _ => True

/-! ## Concrete inputs used to evaluate the operations -/

/-- An environment with neither TOYBOX_DEBUG nor a template override. -/
def env0 : Env := { debugFlag := false, templatePath := none }

/-- A flag-free repository record. -/
def repoAlpha : ToyboxRepoConfig :=
  { name := "alpha", localPath := "/tmp/alpha", remoteUrl := none
    publishedUrl := none, createdAt := 1, lastUsedAt := 1
    isActive := false, metadata := none }

/-- A second record whose caller-supplied `isActive` flag is set, as the
init handler does (src/src/handlers/init.ts line 280). -/
def repoBetaActive : ToyboxRepoConfig :=
  { name := "beta", localPath := "/tmp/beta", remoteUrl := none
    publishedUrl := none, createdAt := 2, lastUsedAt := 2
    isActive := true, metadata := none }

/-- Number of `isActive` records in the document on disk. -/
def activeCountFS : FileState → Nat
  | FileState.valid c => activeCount c
  | _ => 0

/-- Default preferences object. -/
def prefs0 : Preferences :=
  { defaultRepoName := "toybox", autoCommit := true
    commitMessage := "feat: Add new artifact via TOYBOX" }

/-- The document on disk after upserting `repoAlpha` and then making it
active, starting from the freshly persisted default configuration. -/
def alphaActiveDoc : ToyboxConfig :=
  { version := "1.0.0"
    repositories :=
      [{ name := "alpha", localPath := "/tmp/alpha", remoteUrl := none
         publishedUrl := none, createdAt := 1, lastUsedAt := 1
         isActive := true, metadata := none }]
    activeRepository := some "alpha"
    debug := false
    localTemplatePath := none
    lastUpdated := 2
    preferences := prefs0 }

/-- An active record with distinct `createdAt` and `lastUsedAt`. -/
def alphaRec : ToyboxRepoConfig :=
  { name := "alpha", localPath := "/tmp/alpha", remoteUrl := none
    publishedUrl := none, createdAt := 1, lastUsedAt := 3
    isActive := true, metadata := none }

/-- An inactive second record. -/
def betaRec : ToyboxRepoConfig :=
  { name := "beta", localPath := "/tmp/beta", remoteUrl := none
    publishedUrl := none, createdAt := 2, lastUsedAt := 4
    isActive := false, metadata := none }

/-- A two-repository document with alpha active. -/
def twoRepoDoc : ToyboxConfig :=
  { version := "1.0.0"
    repositories := [alphaRec, betaRec]
    activeRepository := some "alpha"
    debug := false
    localTemplatePath := none
    lastUpdated := 4
    preferences := prefs0 }

/-- A valid document carrying a superseded version string. -/
def oldVersionDoc : ToyboxConfig :=
  { version := "0.9.0"
    repositories := [alphaRec, betaRec]
    activeRepository := some "alpha"
    debug := false
    localTemplatePath := none
    lastUpdated := 5
    preferences := prefs0 }

/-- An upsert argument for the already registered name alpha whose
caller-supplied `createdAt` predates the stored one. -/
def rollbackUpsertArg : ToyboxRepoConfig :=
  { name := "alpha", localPath := "/tmp/alpha2", remoteUrl := none
    publishedUrl := none, createdAt := 0, lastUsedAt := 9
    isActive := false, metadata := none }

/-- A record named by the empty string. -/
def emptyNameRepo : ToyboxRepoConfig :=
  { name := "", localPath := "/tmp/e", remoteUrl := none
    publishedUrl := none, createdAt := 1, lastUsedAt := 1
    isActive := false, metadata := none }

/-- A flagged record named x. -/
def flaggedRepo : ToyboxRepoConfig :=
  { name := "x", localPath := "/tmp/x", remoteUrl := none
    publishedUrl := none, createdAt := 2, lastUsedAt := 2
    isActive := true, metadata := none }

/-- A document whose pointer is the empty string while a record with
the empty name exists and another record carries the flag. -/
def emptyPointerDoc : ToyboxConfig :=
  { version := "1.0.0"
    repositories := [emptyNameRepo, flaggedRepo]
    activeRepository := some ""
    debug := false
    localTemplatePath := none
    lastUpdated := 3
    preferences := prefs0 }

theorem mem_updateFirst {p : α → Bool} {f : α → α} {l : List α} {r : α}
    (h : r ∈ updateFirst p f l) :
    r ∈ l ∨ ∃ x, x ∈ l ∧ p x = true ∧ r = f x := by
  induction l with
  | nil => simp [updateFirst] at h
  | cons x xs ih =>
      simp only [updateFirst] at h
      by_cases hp : p x = true
      · rw [if_pos hp] at h
        rcases List.mem_cons.mp h with h1 | h1
        · exact Or.inr ⟨x, List.mem_cons_self x xs, hp, h1⟩
        · exact Or.inl (List.mem_cons_of_mem x h1)
      · rw [if_neg hp] at h
        rcases List.mem_cons.mp h with h1 | h1
        · exact Or.inl (h1 ▸ List.mem_cons_self x xs)
        · rcases ih h1 with h2 | ⟨y, hy, hpy, hr⟩
          · exact Or.inl (List.mem_cons_of_mem x h2)
          · exact Or.inr ⟨y, List.mem_cons_of_mem x hy, hpy, hr⟩

theorem updateFirst_map {p : α → Bool} {f : α → α} {g : α → β}
    (hf : ∀ x, p x = true → g (f x) = g x) (l : List α) :
    (updateFirst p f l).map g = l.map g := by
  induction l with
  | nil => rfl
  | cons x xs ih =>
      simp only [updateFirst]
      by_cases hp : p x = true
      · rw [if_pos hp]; simp [hf x hp]
      · rw [if_neg hp]; simp [ih]

theorem countP_updateFirst_le {p : α → Bool} {f : α → α} {q : α → Bool}
    (hf : ∀ x, p x = true → q (f x) = true → q x = true) (l : List α) :
    (updateFirst p f l).countP q ≤ l.countP q := by
  induction l with
  | nil => simp [updateFirst]
  | cons x xs ih =>
      simp only [updateFirst]
      by_cases hp : p x = true
      · rw [if_pos hp]
        simp only [List.countP_cons]
        have hle : (if q (f x) = true then 1 else 0) ≤
            (if q x = true then 1 else 0) := by
          by_cases hq : q (f x) = true
          · rw [if_pos hq, if_pos (hf x hp hq)]
          · rw [if_neg hq]; exact Nat.zero_le _
        exact Nat.add_le_add (Nat.le_refl _) hle
      · rw [if_neg hp]
        simp only [List.countP_cons]
        exact Nat.add_le_add ih (Nat.le_refl _)

theorem updateFirst_length {p : α → Bool} {f : α → α} (l : List α) :
    (updateFirst p f l).length = l.length := by
  induction l with
  | nil => rfl
  | cons x xs ih =>
      simp only [updateFirst]
      by_cases hp : p x = true
      · rw [if_pos hp]; simp
      · rw [if_neg hp]; simp [ih]

/-- Names are untouched by the update branch of `upsertRepo`. -/
theorem upsert_update_names (repo : ToyboxRepoConfig) (t : Nat)
    (l : List ToyboxRepoConfig) :
    (updateFirst (fun r => r.name == repo.name)
        (fun r => mergeRepo r repo t) l).map (fun r => r.name) =
      l.map (fun r => r.name) := by
  refine updateFirst_map (fun x hx => ?_) l
  simp only [mergeRepo]
  exact (beq_iff_eq.mp hx).symm

/-- With unique names, at most one record matches a given name. -/
theorem countP_name_le_one {l : List ToyboxRepoConfig}
    (hnd : (l.map (fun r => r.name)).Nodup) (n : String) :
    l.countP (fun r => r.name == n) ≤ 1 := by
  have h1 : l.countP (fun r => r.name == n) =
      (l.map (fun r => r.name)).countP (fun m => m == n) := by
    rw [List.countP_map]
    rfl
  have h2 : (l.map (fun r => r.name)).countP (fun m => m == n) =
      (l.map (fun r => r.name)).count n := rfl
  rw [h1, h2]
  exact List.nodup_iff_count_le_one.mp hnd n

theorem mem_map_name {l : List ToyboxRepoConfig} {n : String} :
    n ∈ l.map (fun r => r.name) ↔ ∃ r ∈ l, r.name = n := by
  simp [List.mem_map]

/-- Behaviour of the new repositories array of `upsertRepo` on the
four invariant components, given a flag-free argument. -/
theorem upsertRepoList_facts (repo : ToyboxRepoConfig) (t : Nat)
    (c : ToyboxConfig) (hb : repo.isActive = false) :
    (((upsertRepoList repo t c.repositories).map (fun r => r.name)).Nodup ∨
        ¬ (repoNames c).Nodup) ∧
      (upsertRepoList repo t c.repositories).countP (fun r => r.isActive) ≤
        c.repositories.countP (fun r => r.isActive) ∧
      (∀ r ∈ upsertRepoList repo t c.repositories, r.isActive = true →
        ∃ x ∈ c.repositories, x.isActive = true ∧ x.name = r.name) ∧
      (∀ n, n ∈ repoNames c →
        n ∈ (upsertRepoList repo t c.repositories).map (fun r => r.name)) := by
  unfold upsertRepoList
  by_cases hex : c.repositories.any (fun r => r.name == repo.name) = true
  · rw [if_pos hex]
    refine ⟨?_, ?_, ?_, ?_⟩
    · rw [upsert_update_names]
      by_cases hnd : (repoNames c).Nodup
      · exact Or.inl hnd
      · exact Or.inr hnd
    · refine countP_updateFirst_le (fun x hp hq => ?_) _
      simp only [mergeRepo] at hq
      rw [hb] at hq
      exact absurd hq (by simp)
    · intro r hr hact
      rcases mem_updateFirst hr with hmem | ⟨x, hx, hpx, hfx⟩
      · exact ⟨r, hmem, hact, rfl⟩
      · exfalso
        rw [hfx] at hact
        simp only [mergeRepo] at hact
        rw [hb] at hact
        exact absurd hact (by simp)
    · intro n hn
      rw [upsert_update_names]
      exact hn
  · rw [if_neg hex]
    have hfresh : ∀ x ∈ c.repositories, x.name ≠ repo.name := by
      intro x hx he
      exact hex (List.any_eq_true.mpr ⟨x, hx, beq_iff_eq.mpr he⟩)
    refine ⟨?_, ?_, ?_, ?_⟩
    · by_cases hnd : (repoNames c).Nodup
      · refine Or.inl ?_
        rw [List.map_append]
        rw [List.nodup_append]
        refine ⟨hnd, List.nodup_singleton _, ?_⟩
        intro m hm hm2
        simp at hm2
        rcases mem_map_name.mp hm with ⟨x, hx, he⟩
        exact hfresh x hx (he.trans hm2)
      · exact Or.inr hnd
    · rw [List.countP_append]
      have : List.countP (fun r => r.isActive)
          [{ repo with lastUsedAt := t }] = 0 := by
        simp [List.countP_cons, hb]
      rw [this]
      exact Nat.le_refl _
    · intro r hr hact
      rcases List.mem_append.mp hr with hmem | hmem
      · exact ⟨r, hmem, hact, rfl⟩
      · exfalso
        simp at hmem
        rw [hmem] at hact
        simp [hb] at hact
    · intro n hn
      rw [List.map_append]
      exact List.mem_append_left _ hn

/-- When the array produced by `upsertRepoList` is a singleton, that
record carries the upserted name. -/
theorem upsertRepoList_singleton_name (repo : ToyboxRepoConfig) (t : Nat)
    (l : List ToyboxRepoConfig) (x : ToyboxRepoConfig)
    (hx : upsertRepoList repo t l = [x]) : x.name = repo.name := by
  unfold upsertRepoList at hx
  by_cases hex : l.any (fun r => r.name == repo.name) = true
  · rw [if_pos hex] at hx
    have hlen : l.length = 1 := by
      have := updateFirst_length (p := fun r => r.name == repo.name)
        (f := fun r => mergeRepo r repo t) l
      rw [hx] at this
      exact this.symm
    rcases List.length_eq_one.mp hlen with ⟨y, hy⟩
    subst hy
    have hpy : (y.name == repo.name) = true := by
      rcases List.any_eq_true.mp hex with ⟨z, hz, hpz⟩
      simp at hz
      rw [hz] at hpz
      exact hpz
    simp only [updateFirst, if_pos hpy] at hx
    have : x = mergeRepo y repo t := by
      injection hx with h1 h2
      exact h1.symm
    rw [this]
    rfl
  · rw [if_neg hex] at hx
    rcases l with _ | ⟨a, as⟩
    · simp at hx
      rw [← hx]
    · exfalso
      have : (a :: as ++ [{ repo with lastUsedAt := t }]).length =
          as.length + 2 := by simp
      rw [hx] at this
      simp at this

/-- Lemma: `upsertRepo` preserves the registry invariant when the supplied
record does not carry a set `isActive` flag. -/
theorem invConfig_upsertRepo (repo : ToyboxRepoConfig) (t : Nat)
    (c : ToyboxConfig) (hb : repo.isActive = false) (h : InvConfig c) :
    InvConfig (upsertRepo repo t c) := by
  obtain ⟨hnd, hcnt, hflag, hptr⟩ := h
  obtain ⟨hN, hC, hF, hE⟩ := upsertRepoList_facts repo t c hb
  have hN2 : ((upsertRepoList repo t c.repositories).map
      (fun r => r.name)).Nodup := by
    rcases hN with hN | hN
    · exact hN
    · exact absurd hnd hN
  unfold upsertRepo
  by_cases hlen : (upsertRepoList repo t c.repositories).length = 1
  · have hcond : ((upsertRepoList repo t c.repositories).length == 1) = true := by
      simp [hlen]
    rw [if_pos hcond]
    rcases List.length_eq_one.mp hlen with ⟨x, hx⟩
    have hname : x.name = repo.name :=
      upsertRepoList_singleton_name repo t c.repositories x hx
    rw [hx]
    refine ⟨?_, ?_, ?_, ?_⟩
    · simp [repoNames, setHeadActive]
    · simp [activeCount, setHeadActive, List.countP_cons]
    · intro r hr hact
      simp only [setHeadActive] at hr
      simp at hr
      rw [hr]
      simp [hname]
    · intro n hn
      simp at hn
      simp [repoNames, setHeadActive, hn, hname]
  · have hcond : ¬ ((upsertRepoList repo t c.repositories).length == 1) = true := by
      simp [hlen]
    rw [if_neg hcond]
    refine ⟨?_, ?_, ?_, ?_⟩
    · exact hN2
    · exact Nat.le_trans hC hcnt
    · intro r hr hact
      rcases hF r hr hact with ⟨x, hx, hxact, hxname⟩
      have := hflag x hx hxact
      rw [this, hxname]
    · intro n hn
      exact hE n (hptr n hn)

/-- Lemma: `setActiveRepo` preserves the registry invariant whenever it
succeeds. -/
theorem invConfig_setActiveRepo {n : String} {c c2 : ToyboxConfig}
    (h : InvConfig c) (hok : setActiveRepo n c = Except.ok c2) :
    InvConfig c2 := by
  obtain ⟨hnd, hcnt, hflag, hptr⟩ := h
  unfold setActiveRepo at hok
  by_cases hex : c.repositories.any (fun r => r.name == n) = true
  · rw [if_pos hex] at hok
    injection hok with hok
    rw [← hok]
    refine ⟨?_, ?_, ?_, ?_⟩
    · simp only [repoNames, List.map_map]
      have : ((fun r => r.name) ∘
          fun r => { r with isActive := r.name == n } :
            ToyboxRepoConfig → String) = fun r => r.name := rfl
      rw [this]
      exact hnd
    · simp only [activeCount, List.countP_map]
      have : ((fun r => r.isActive) ∘
          fun r => { r with isActive := r.name == n } :
            ToyboxRepoConfig → Bool) = fun r => r.name == n := rfl
      rw [this]
      exact countP_name_le_one hnd n
    · intro r hr hact
      rcases List.mem_map.mp hr with ⟨x, hx, he⟩
      rw [← he] at hact
      simp at hact
      rw [← he]
      simp [hact]
    · intro m hm
      simp at hm
      rcases List.any_eq_true.mp hex with ⟨x, hx, hpx⟩
      have : x.name = n := beq_iff_eq.mp hpx
      simp only [repoNames, List.map_map]
      have hcomp : ((fun r => r.name) ∘
          fun r => { r with isActive := r.name == n } :
            ToyboxRepoConfig → String) = fun r => r.name := rfl
      rw [hcomp, ← hm, ← this]
      exact List.mem_map_of_mem _ hx
  · rw [if_neg hex] at hok
    exact absurd hok (by simp)

/-- Lemma: `removeRepo` preserves the registry invariant. -/
theorem invConfig_removeRepo (n : String) (c : ToyboxConfig)
    (h : InvConfig c) : InvConfig (removeRepo n c) := by
  obtain ⟨hnd, hcnt, hflag, hptr⟩ := h
  unfold removeRepo
  by_cases hp : (c.activeRepository == some n) = true
  · rw [if_pos hp]
    have hpe : c.activeRepository = some n := beq_iff_eq.mp hp
    rcases hE : c.repositories.filter (fun r => r.name != n) with _ | ⟨r, rest⟩
    · simp only [hE]
      refine ⟨?_, ?_, ?_, ?_⟩
      · simp [repoNames]
      · simp [activeCount]
      · intro r hr
        simp at hr
      · intro m hm
        simp at hm
    · simp only [hE]
      have hmemf : ∀ s, s ∈ r :: rest → s ∈ c.repositories ∧ s.name ≠ n := by
        intro s hs
        rw [← hE] at hs
        have := List.mem_filter.mp hs
        exact ⟨this.1, bne_iff_ne.mp this.2⟩
      have hrest0 : ∀ s ∈ rest, s.isActive = false := by
        intro s hs
        rcases hmemf s (List.mem_cons_of_mem r hs) with ⟨hsm, hsn⟩
        by_cases hact : s.isActive = true
        · exfalso
          have := hflag s hsm hact
          rw [hpe] at this
          exact hsn (Option.some.inj this.symm)
        · exact Bool.eq_false_iff.mpr (fun he => hact he)
      refine ⟨?_, ?_, ?_, ?_⟩
      · have hsub : List.Sublist ((r :: rest).map (fun r => r.name))
            (c.repositories.map (fun r => r.name)) := by
          rw [← hE]
          exact List.Sublist.map _ (List.filter_sublist _)
        have hnd2 : ((r :: rest).map (fun r => r.name)).Nodup :=
          List.Nodup.sublist hsub hnd
        simpa [repoNames] using hnd2
      · simp only [activeCount, List.countP_cons]
        have : rest.countP (fun r => r.isActive) = 0 :=
          List.countP_eq_zero.mpr (fun s hs => by simp [hrest0 s hs])
        simp [this]
      · intro s hs hact
        rcases List.mem_cons.mp hs with hs1 | hs1
        · rw [hs1]
        · exact absurd hact (by simp [hrest0 s hs1])
      · intro m hm
        have : r.name = m := Option.some.inj hm
        simp [repoNames, ← this]
  · rw [if_neg hp]
    have hpne : c.activeRepository ≠ some n := fun he =>
      hp (beq_iff_eq.mpr he)
    refine ⟨?_, ?_, ?_, ?_⟩
    · have hsub : List.Sublist
          ((c.repositories.filter (fun r => r.name != n)).map
            (fun r => r.name))
          (c.repositories.map (fun r => r.name)) :=
        List.Sublist.map _ (List.filter_sublist _)
      exact List.Nodup.sublist hsub hnd
    · exact Nat.le_trans
        (List.Sublist.countP_le _ (List.filter_sublist _)) hcnt
    · intro s hs hact
      exact hflag s (List.mem_filter.mp hs).1 hact
    · intro m hm
      have hmn : m ≠ n := by
        intro he
        rw [he] at hm
        exact hpne hm
      rcases mem_map_name.mp (hptr m hm) with ⟨x, hx, he⟩
      refine mem_map_name.mpr ⟨x, ?_, he⟩
      refine List.mem_filter.mpr ⟨hx, ?_⟩
      rw [he]
      exact bne_iff_ne.mpr hmn

theorem invConfig_stamped {c : ToyboxConfig} {t : Nat}
    (h : InvConfig c) : InvConfig (stamped c t) := h

theorem invConfig_migrate {c : ToyboxConfig} (h : InvConfig c) :
    InvConfig (migrate c) := by
  unfold migrate
  split
  · exact h
  · exact h

theorem invConfig_default (env : Env) (t : Nat) :
    InvConfig (createDefaultConfig env t) := by
  refine ⟨?_, ?_, ?_, ?_⟩
  · simp [repoNames, createDefaultConfig]
  · simp [activeCount, createDefaultConfig]
  · intro r hr
    simp [createDefaultConfig] at hr
  · intro n hn
    simp [createDefaultConfig] at hn

/-- Lemma: `update` with a total invariant-preserving updater preserves the
file-state invariant. -/
theorem invFS_updateSvc_pure (env : Env) (fs : FileState) (t : Nat)
    (g : ToyboxConfig → ToyboxConfig)
    (hg : ∀ c, InvConfig c → InvConfig (g c)) (hI : InvFS fs) :
    InvFS (updateSvc env fs (fun c => Except.ok (g c)) t).2 := by
  cases fs with
  | absent =>
      exact invConfig_stamped (hg _ (invConfig_default env t))
  | invalidJson => trivial
  | badSchema =>
      exact invConfig_stamped (hg _ (invConfig_default env t))
  | valid c =>
      exact invConfig_stamped (hg _ (invConfig_migrate hI))

/-- Lemma: `setActiveRepository` preserves the file-state invariant. -/
theorem invFS_setActiveRepository (env : Env) (fs : FileState)
    (n : String) (t : Nat) (hI : InvFS fs) :
    InvFS (setActiveRepository env fs n t).2 := by
  cases fs with
  | absent =>
      simp only [setActiveRepository, updateSvc]
      rcases hok : setActiveRepo n (createDefaultConfig env t) with c2 | e
      · trivial
      · exact invConfig_stamped (invConfig_setActiveRepo (invConfig_default env t) hok)
  | invalidJson => trivial
  | badSchema =>
      simp only [setActiveRepository, updateSvc]
      rcases hok : setActiveRepo n (createDefaultConfig env t) with c2 | e
      · exact invConfig_stamped (invConfig_default env t)
      · exact invConfig_stamped (invConfig_setActiveRepo (invConfig_default env t) hok)
  | valid c =>
      simp only [setActiveRepository, updateSvc]
      rcases hok : setActiveRepo n (migrate c) with c2 | e
      · exact hI
      · exact invConfig_stamped
          (invConfig_setActiveRepo (invConfig_migrate hI) hok)

/-- Any benign registry call preserves the file-state invariant. -/
theorem invFS_applyC2Op (env : Env) (fs : FileState) (op : C2Op)
    (hI : InvFS fs) (hb : benignOp op = true) :
    InvFS (applyC2Op env fs op) := by
  cases op with
  | upsert r t =>
      have hb2 : r.isActive = false := by
        simp [benignOp] at hb
        exact hb
      exact invFS_updateSvc_pure env fs t (upsertRepo r t)
        (fun c hc => invConfig_upsertRepo r t c hb2 hc) hI
  | setActive n t => exact invFS_setActiveRepository env fs n t hI
  | remove n t =>
      exact invFS_updateSvc_pure env fs t (removeRepo n)
        (fun c hc => invConfig_removeRepo n c hc) hI

/-- The file-state invariant holds after any sequence of benign
registry calls. -/
theorem invFS_runC2 (env : Env) (ops : List C2Op) :
    ∀ fs, InvFS fs → (∀ op ∈ ops, benignOp op = true) →
      InvFS (runC2 env fs ops) := by
  induction ops with
  | nil => intro fs hI _; exact hI
  | cons op ops ih =>
      intro fs hI hb
      exact ih (applyC2Op env fs op)
        (invFS_applyC2Op env fs op hI (hb op (List.mem_cons_self op ops)))
        (fun o ho => hb o (List.mem_cons_of_mem op ho))

/-- Claim C2, counterexample to the statement as written: starting from
the freshly persisted default configuration, the call sequence
`upsertRepository repoAlpha; upsertRepository repoBetaActive` (the
second record carrying `isActive = true`, as the repository-initialize
handler passes it) leaves TWO records with `isActive = true` on disk:
the second upsert pushes the caller's record, flag included, and only
resets flags when the registry had been empty. -/
theorem two_active_after_flagged_upsert :
    activeCountFS (runC2 env0 (writeSvc (createDefaultConfig env0 0) 0)
      [C2Op.upsert repoAlpha 1, C2Op.upsert repoBetaActive 2]) = 2 := by
  decide

/-- Claim C2 (amended): starting from the freshly persisted default
configuration, after any sequence of `upsertRepository`,
`setActiveRepository` and `removeRepository` calls in which every
upserted record carries `isActive = false`, the document on disk has at
most one record with `isActive = true`, and every such record is the
one named by `activeRepository`.  (With arbitrary record arguments the
property is false — `upsertRepository` installs the caller-supplied
flag verbatim — and the pointer may be left naming a record whose flag
was cleared by a later upsert, so the pointer clause holds in this
direction only.) -/
theorem upsert_setActive_remove_atMostOneActive (env : Env) (t0 : Nat)
    (ops : List C2Op) (hb : ∀ op ∈ ops, benignOp op = true)
    (c : ToyboxConfig)
    (hrun : runC2 env (writeSvc (createDefaultConfig env t0) t0) ops =
      FileState.valid c) :
    activeCount c ≤ 1 ∧
      ∀ r ∈ c.repositories, r.isActive = true →
        c.activeRepository = some r.name := by
  have h0 : InvFS (writeSvc (createDefaultConfig env t0) t0) :=
    invConfig_stamped (invConfig_default env t0)
  have h1 := invFS_runC2 env ops _ h0 hb
  rw [hrun] at h1
  exact ⟨h1.2.1, h1.2.2.1⟩

theorem upsert_setActive_remove_atMostOneActive_witness :
    (∀ op ∈ [C2Op.upsert repoAlpha 1, C2Op.setActive "alpha" 2],
        benignOp op = true) ∧
      activeCount alphaActiveDoc ≤ 1 ∧
        ∀ r ∈ alphaActiveDoc.repositories, r.isActive = true →
          alphaActiveDoc.activeRepository = some r.name :=
  ⟨by decide,
    upsert_setActive_remove_atMostOneActive env0 0
      [C2Op.upsert repoAlpha 1, C2Op.setActive "alpha" 2] (by decide)
      alphaActiveDoc (by decide)⟩

/-- Claim C1, counterexample to the statement as written: a file whose
bytes are not valid JSON makes `JSON.parse` throw a SyntaxError, which
is not a `z.ZodError`, so `read()` rethrows a read failure to the
caller instead of repairing, and the file still holds invalid JSON
afterwards. -/
theorem read_errors_on_invalid_json :
    (readSvc env0 FileState.invalidJson 0).1 = Except.error readFailMsg ∧
      (readSvc env0 FileState.invalidJson 0).2 = FileState.invalidJson := by
  exact ⟨rfl, rfl⟩

/-- Claim C1 (amended): `read()` swallows only schema-validation
failures: on a file holding JSON that fails the Configuration schema it
synthesizes a default Configuration, persists it over the broken file
(so the file then holds a valid document) and returns it; on a file
whose bytes are not valid JSON it propagates an error to the caller and
leaves the file unchanged. -/
theorem read_corruption_recovery (env : Env) (t : Nat) :
    readSvc env FileState.badSchema t =
        (Except.ok (createDefaultConfig env t),
          FileState.valid (createDefaultConfig env t)) ∧
      readSvc env FileState.invalidJson t =
        (Except.error readFailMsg, FileState.invalidJson) := by
  exact ⟨rfl, rfl⟩

/-- Claim C10: on a valid file whose version differs from
`CONFIG_VERSION`, `read()` returns the document with `version` stamped
to the current version, but does not write the migrated document back:
the file state after the call is exactly the file state before it. -/
theorem read_migrates_without_writing (env : Env) (c : ToyboxConfig)
    (t : Nat) (h : c.version ≠ CONFIG_VERSION) :
    (readSvc env (FileState.valid c) t).1 =
        Except.ok { c with version := CONFIG_VERSION } ∧
      (readSvc env (FileState.valid c) t).2 = FileState.valid c := by
  constructor
  · simp [readSvc, migrate, h]
  · rfl

theorem read_migrates_without_writing_witness :
    oldVersionDoc.version ≠ CONFIG_VERSION ∧
      (readSvc env0 (FileState.valid oldVersionDoc) 7).1 =
          Except.ok { oldVersionDoc with version := CONFIG_VERSION } ∧
        (readSvc env0 (FileState.valid oldVersionDoc) 7).2 =
          FileState.valid oldVersionDoc :=
  ⟨by decide, read_migrates_without_writing env0 oldVersionDoc 7 (by decide)⟩

/-- Claim C6, counterexample to the statement as written: a valid
Configuration whose `version` is the schema-accepted string 0.9.0
round-trips through `write` then `read` into a document whose `version`
is 1.0.0, so the version field is NOT preserved. -/
theorem roundtrip_restamps_version :
    (readSvc env0 (writeSvc oldVersionDoc 6) 7).1 =
        Except.ok { oldVersionDoc with
          lastUpdated := 6
          version := CONFIG_VERSION } ∧
      CONFIG_VERSION ≠ oldVersionDoc.version := by
  exact ⟨rfl, by decide⟩

/-- Claim C6 (amended): for every Configuration `C` and write time not
earlier than `C.lastUpdated`, `write(C)` followed by `read()` yields a
Configuration equal to `C` in repositories (all record fields),
activeRepository, debug, localTemplatePath and preferences, with
`lastUpdated` greater than or equal to `C.lastUpdated`, and with
`version` stamped to the current `CONFIG_VERSION` by `migrate` (equal
to `C.version` exactly when `C` already carried the current version). -/
theorem write_read_roundtrip (env : Env) (c : ToyboxConfig) (t t2 : Nat)
    (h : c.lastUpdated ≤ t) :
    ∃ c2, (readSvc env (writeSvc c t) t2).1 = Except.ok c2 ∧
      c2.version = CONFIG_VERSION ∧
      c2.repositories = c.repositories ∧
      c2.activeRepository = c.activeRepository ∧
      c2.debug = c.debug ∧
      c2.localTemplatePath = c.localTemplatePath ∧
      c2.preferences = c.preferences ∧
      c.lastUpdated ≤ c2.lastUpdated := by
  refine ⟨migrate (stamped c t), rfl, ?_, ?_, ?_, ?_, ?_, ?_, ?_⟩
  · unfold migrate
    split
    · rfl
    · rename_i h2
      exact not_not.mp h2
  · unfold migrate; split <;> rfl
  · unfold migrate; split <;> rfl
  · unfold migrate; split <;> rfl
  · unfold migrate; split <;> rfl
  · unfold migrate; split <;> rfl
  · unfold migrate; split <;> exact h

theorem write_read_roundtrip_witness :
    oldVersionDoc.lastUpdated ≤ 6 ∧
      ∃ c2, (readSvc env0 (writeSvc oldVersionDoc 6) 7).1 = Except.ok c2 ∧
        c2.version = CONFIG_VERSION ∧
        c2.repositories = oldVersionDoc.repositories ∧
        c2.activeRepository = oldVersionDoc.activeRepository ∧
        c2.debug = oldVersionDoc.debug ∧
        c2.localTemplatePath = oldVersionDoc.localTemplatePath ∧
        c2.preferences = oldVersionDoc.preferences ∧
        oldVersionDoc.lastUpdated ≤ c2.lastUpdated :=
  ⟨by decide, write_read_roundtrip env0 oldVersionDoc 6 7 (by decide)⟩

theorem getActiveRepo_of_ptr_none {c : ToyboxConfig}
    (h : c.activeRepository = none) :
    getActiveRepo c = c.repositories.find? (fun r => r.isActive) := by
  unfold getActiveRepo
  rw [h]

theorem getActiveRepo_of_ptr_empty {c : ToyboxConfig}
    (h : c.activeRepository = some "") :
    getActiveRepo c = c.repositories.find? (fun r => r.isActive) := by
  unfold getActiveRepo
  rw [h]
  simp

theorem getActiveRepo_of_ptr_some {c : ToyboxConfig} {n : String}
    (h : c.activeRepository = some n) (hn : n ≠ "") :
    getActiveRepo c = c.repositories.find? (fun r => r.name == n) := by
  unfold getActiveRepo
  rw [h]
  exact if_neg hn

theorem find?_append_of_some {p : α → Bool} {l1 l2 : List α} {a : α}
    (h : l1.find? p = some a) : (l1 ++ l2).find? p = some a := by
  induction l1 with
  | nil => simp [List.find?] at h
  | cons x xs ih =>
      by_cases hp : p x = true
      · rw [List.find?_cons_of_pos _ hp] at h
        rw [List.cons_append, List.find?_cons_of_pos _ hp]
        exact h
      · rw [List.find?_cons_of_neg _ hp] at h
        rw [List.cons_append, List.find?_cons_of_neg _ hp]
        exact ih h

/-- Claim C3: upserting into an empty registry activates the record
(flag and pointer) without a separate `setActiveRepository` call;
upserting a record with a fresh name into a non-empty registry leaves
the pointer untouched, appends the record after the unchanged existing
ones, and any repository that `getActiveRepository` resolved before the
call is still the one it resolves afterwards. -/
theorem upsertRepo_activation (c : ToyboxConfig) (repo : ToyboxRepoConfig)
    (t : Nat) :
    (c.repositories = [] →
      (upsertRepo repo t c).activeRepository = some repo.name ∧
        (upsertRepo repo t c).repositories =
          [{ repo with lastUsedAt := t, isActive := true }]) ∧
    (c.repositories ≠ [] → (∀ r ∈ c.repositories, r.name ≠ repo.name) →
      (upsertRepo repo t c).activeRepository = c.activeRepository ∧
        (upsertRepo repo t c).repositories =
          c.repositories ++ [{ repo with lastUsedAt := t }] ∧
        (∀ r, getActiveRepo c = some r →
          getActiveRepo (upsertRepo repo t c) = some r)) := by
  constructor
  · intro heq
    unfold upsertRepo upsertRepoList
    rw [heq]
    constructor
    · rfl
    · rfl
  · intro hne hfresh
    have hany : c.repositories.any (fun r => r.name == repo.name) = false := by
      rw [List.any_eq_false]
      intro x hx
      simp only [beq_iff_eq]
      exact hfresh x hx
    have hlist : upsertRepoList repo t c.repositories =
        c.repositories ++ [{ repo with lastUsedAt := t }] := by
      unfold upsertRepoList
      rw [if_neg (by rw [hany]; exact Bool.false_ne_true)]
    have hlen : ¬ ((upsertRepoList repo t c.repositories).length == 1) = true := by
      rw [hlist]
      rcases List.exists_cons_of_ne_nil hne with ⟨a, as, ha⟩
      rw [ha]
      simp
    unfold upsertRepo
    rw [if_neg hlen]
    refine ⟨rfl, hlist, ?_⟩
    intro r hr
    rcases hP : c.activeRepository with _ | n
    · rw [getActiveRepo_of_ptr_none hP] at hr
      have h2 := getActiveRepo_of_ptr_none
        (c := { c with repositories := upsertRepoList repo t c.repositories, activeRepository := none }) rfl
      rw [h2]
      show ((upsertRepoList repo t c.repositories).find? fun r => r.isActive) = some r
      rw [hlist]
      exact find?_append_of_some hr
    · by_cases hn : n = ""
      · subst hn
        rw [getActiveRepo_of_ptr_empty hP] at hr
        have h2 := getActiveRepo_of_ptr_empty
          (c := { c with repositories := upsertRepoList repo t c.repositories, activeRepository := some "" }) rfl
        rw [h2]
        show ((upsertRepoList repo t c.repositories).find? fun r => r.isActive) = some r
        rw [hlist]
        exact find?_append_of_some hr
      · rw [getActiveRepo_of_ptr_some hP hn] at hr
        have h2 := getActiveRepo_of_ptr_some
          (c := { c with repositories := upsertRepoList repo t c.repositories, activeRepository := some n })
          (n := n) rfl hn
        rw [h2]
        show ((upsertRepoList repo t c.repositories).find? fun r => r.name == n) = some r
        rw [hlist]
        exact find?_append_of_some hr

theorem upsertRepo_activation_witness :
    ((createDefaultConfig env0 0).repositories = [] ∧
      (upsertRepo repoAlpha 1 (createDefaultConfig env0 0)).activeRepository =
          some repoAlpha.name ∧
        (upsertRepo repoAlpha 1 (createDefaultConfig env0 0)).repositories =
          [{ repoAlpha with lastUsedAt := 1, isActive := true }]) ∧
      ((upsertRepo repoBetaActive 2 alphaActiveDoc).activeRepository =
          alphaActiveDoc.activeRepository ∧
        (upsertRepo repoBetaActive 2 alphaActiveDoc).repositories =
          alphaActiveDoc.repositories ++
            [{ repoBetaActive with lastUsedAt := 2 }] ∧
        (∀ r, getActiveRepo alphaActiveDoc = some r →
          getActiveRepo (upsertRepo repoBetaActive 2 alphaActiveDoc) =
            some r)) :=
  ⟨⟨rfl, (upsertRepo_activation (createDefaultConfig env0 0) repoAlpha 1).1 rfl⟩,
    (upsertRepo_activation alphaActiveDoc repoBetaActive 2).2
      (by decide) (by decide)⟩

/-- Claim C4: `removeRepo` drops every record with the given name; when
the pointer named the removed record, the pointer is cleared and, if
records remain, the first remaining record is promoted (flag and
pointer), while an empty remainder leaves no pointer and a null
`getActiveRepository` resolution; when the pointer did not name the
removed record, pointer and remaining records are unchanged. -/
theorem removeRepo_spec (c : ToyboxConfig) (n : String) :
    (∀ r ∈ (removeRepo n c).repositories, r.name ≠ n) ∧
    (c.activeRepository = some n →
      (c.repositories.filter (fun r => r.name != n) = [] →
        (removeRepo n c).activeRepository = none ∧
          getActiveRepo (removeRepo n c) = none) ∧
      (∀ r rest, c.repositories.filter (fun r => r.name != n) = r :: rest →
        (removeRepo n c).activeRepository = some r.name ∧
          (removeRepo n c).repositories =
            { r with isActive := true } :: rest)) ∧
    (c.activeRepository ≠ some n →
      (removeRepo n c).activeRepository = c.activeRepository ∧
        (removeRepo n c).repositories =
          c.repositories.filter (fun r => r.name != n)) := by
  unfold removeRepo
  by_cases hp : (c.activeRepository == some n) = true
  · have hpe : c.activeRepository = some n := beq_iff_eq.mp hp
    rw [if_pos hp]
    rcases hE : c.repositories.filter (fun r => r.name != n) with _ | ⟨r0, rest0⟩
    · simp only [hE]
      refine ⟨?_, ?_, ?_⟩
      · intro r hr
        simp at hr
      · intro _
        constructor
        · intro _
          exact ⟨trivial, rfl⟩
        · intro r rest hF
          exact absurd hF (by simp)
      · intro hne
        exact absurd hpe hne
    · simp only [hE]
      refine ⟨?_, ?_, ?_⟩
      · intro r hr
        rcases List.mem_cons.mp hr with h1 | h1
        · have hmem : r0 ∈ c.repositories.filter (fun r => r.name != n) := by
            rw [hE]
            exact List.mem_cons_self r0 rest0
          have h2 := (List.mem_filter.mp hmem).2
          rw [h1]
          exact bne_iff_ne.mp h2
        · have hmem : r ∈ c.repositories.filter (fun r => r.name != n) := by
            rw [hE]
            exact List.mem_cons_of_mem r0 h1
          exact bne_iff_ne.mp (List.mem_filter.mp hmem).2
      · intro _
        constructor
        · intro hF
          exact absurd hF (by simp)
        · intro r rest hF
          injection hF with hF1 hF2
          rw [← hF1, ← hF2]
          exact ⟨rfl, rfl⟩
      · intro hne
        exact absurd hpe hne
  · have hpne : c.activeRepository ≠ some n := fun he => hp (beq_iff_eq.mpr he)
    rw [if_neg hp]
    refine ⟨?_, ?_, ?_⟩
    · intro r hr
      exact bne_iff_ne.mp (List.mem_filter.mp hr).2
    · intro hpeq
      exact absurd hpeq hpne
    · intro _
      exact ⟨rfl, rfl⟩

theorem removeRepo_spec_witness :
    twoRepoDoc.activeRepository = some "alpha" ∧
      (removeRepo "alpha" twoRepoDoc).activeRepository =
          some betaRec.name ∧
        (removeRepo "alpha" twoRepoDoc).repositories =
          [{ betaRec with isActive := true }] :=
  ⟨by decide,
    ((removeRepo_spec twoRepoDoc "alpha").2.1 (by decide)).2
      betaRec [] (by decide)⟩

theorem migrate_repositories (c : ToyboxConfig) :
    (migrate c).repositories = c.repositories := by
  unfold migrate
  split <;> rfl

/-- Claim C5: on a stored configuration with no record of the given
name, `setActiveRepository` propagates the (wrapped) not-found error
and the file is unchanged; on a stored configuration containing such a
record, the one written document simultaneously carries every record's
`isActive` set to `name == repoName` and the pointer set to the name —
both halves installed by the same single `update` write. -/
theorem setActiveRepository_spec (env : Env) (c : ToyboxConfig)
    (n : String) (t : Nat) :
    ((∀ r ∈ c.repositories, r.name ≠ n) →
      setActiveRepository env (FileState.valid c) n t =
        (Except.error (updateFailMsg
            ("Repository " ++ n ++ " not found in configuration")),
          FileState.valid c)) ∧
    ((∃ r ∈ c.repositories, r.name = n) →
      setActiveRepository env (FileState.valid c) n t =
        (Except.ok (stamped { migrate c with
            repositories := c.repositories.map
              (fun r => { r with isActive := r.name == n })
            activeRepository := some n } t),
          FileState.valid (stamped { migrate c with
            repositories := c.repositories.map
              (fun r => { r with isActive := r.name == n })
            activeRepository := some n } t))) := by
  have hrep : (migrate c).repositories = c.repositories :=
    migrate_repositories c
  constructor
  · intro hnone
    have hany : (migrate c).repositories.any (fun r => r.name == n) = false := by
      rw [hrep, List.any_eq_false]
      intro x hx
      simp only [beq_iff_eq]
      exact hnone x hx
    have hfail : setActiveRepo n (migrate c) =
        Except.error ("Repository " ++ n ++ " not found in configuration") := by
      unfold setActiveRepo
      rw [if_neg (by rw [hany]; exact Bool.false_ne_true)]
    have hred : updateSvc env (FileState.valid c) (setActiveRepo n) t =
        match setActiveRepo n (migrate c) with
        | Except.ok c2 => (Except.ok (stamped c2 t), writeSvc c2 t)
        | Except.error e =>
            (Except.error (updateFailMsg e), FileState.valid c) := rfl
    show updateSvc env (FileState.valid c) (setActiveRepo n) t = _
    rw [hred, hfail]
  · rintro ⟨r0, hr0, hname⟩
    have hany : (migrate c).repositories.any (fun r => r.name == n) = true := by
      rw [hrep]
      exact List.any_eq_true.mpr ⟨r0, hr0, beq_iff_eq.mpr hname⟩
    have hok : setActiveRepo n (migrate c) =
        Except.ok { migrate c with
          repositories := c.repositories.map
            (fun r => { r with isActive := r.name == n })
          activeRepository := some n } := by
      unfold setActiveRepo
      rw [if_pos hany, hrep]
    have hred : updateSvc env (FileState.valid c) (setActiveRepo n) t =
        match setActiveRepo n (migrate c) with
        | Except.ok c2 => (Except.ok (stamped c2 t), writeSvc c2 t)
        | Except.error e =>
            (Except.error (updateFailMsg e), FileState.valid c) := rfl
    show updateSvc env (FileState.valid c) (setActiveRepo n) t = _
    rw [hred, hok]
    rfl

theorem setActiveRepository_spec_witness :
    (∃ r ∈ twoRepoDoc.repositories, r.name = "beta") ∧
      setActiveRepository env0 (FileState.valid twoRepoDoc) "beta" 9 =
        (Except.ok (stamped { migrate twoRepoDoc with
            repositories := twoRepoDoc.repositories.map
              (fun r => { r with isActive := r.name == "beta" })
            activeRepository := some "beta" } 9),
          FileState.valid (stamped { migrate twoRepoDoc with
            repositories := twoRepoDoc.repositories.map
              (fun r => { r with isActive := r.name == "beta" })
            activeRepository := some "beta" } 9)) :=
  ⟨by decide,
    (setActiveRepository_spec env0 twoRepoDoc "beta" 9).2 (by decide)⟩

/-- Claim C7, counterexample to the statement as written: the guard in
`getActiveRepository` is JavaScript truthiness, so a pointer holding
the empty string — a set pointer naming an existing record — is treated
as unset: the fallback flag scan returns the flagged record x instead
of the record actually named by the pointer. -/
theorem getActive_ignores_empty_pointer :
    emptyPointerDoc.activeRepository = some "" ∧
      (∃ r ∈ emptyPointerDoc.repositories, r.name = "") ∧
      getActiveRepo emptyPointerDoc = some flaggedRepo ∧
      flaggedRepo.name ≠ "" := by
  refine ⟨rfl, ⟨emptyNameRepo, by decide, rfl⟩, ?_, by decide⟩
  decide

/-- Claim C7 (amended): when `activeRepository` holds a non-empty name,
`getActiveRepository` returns the first record with that name, or null
when the pointer is stale and no record matches; when the pointer is
absent — or holds the empty string, which the truthiness guard treats
as absent — it returns the first record with `isActive = true`, or null
if none. -/
theorem getActiveRepo_resolution (c : ToyboxConfig) :
    (∀ n r, c.activeRepository = some n → n ≠ "" →
      c.repositories.find? (fun x => x.name == n) = some r →
        getActiveRepo c = some r) ∧
    (∀ n, c.activeRepository = some n → n ≠ "" →
      c.repositories.find? (fun x => x.name == n) = none →
        getActiveRepo c = none) ∧
    (c.activeRepository = none →
      getActiveRepo c = c.repositories.find? (fun x => x.isActive)) ∧
    (c.activeRepository = some "" →
      getActiveRepo c = c.repositories.find? (fun x => x.isActive)) := by
  refine ⟨?_, ?_, ?_, ?_⟩
  · intro n r hP hn hf
    rw [getActiveRepo_of_ptr_some hP hn]
    exact hf
  · intro n hP hn hf
    rw [getActiveRepo_of_ptr_some hP hn]
    exact hf
  · intro hP
    exact getActiveRepo_of_ptr_none hP
  · intro hP
    exact getActiveRepo_of_ptr_empty hP

theorem getActiveRepo_resolution_witness :
    twoRepoDoc.activeRepository = some "alpha" ∧
      getActiveRepo twoRepoDoc = some alphaRec :=
  ⟨rfl,
    (getActiveRepo_resolution twoRepoDoc).1 "alpha" alphaRec
      rfl (by decide) (by decide)⟩

theorem repo_name_inj {l : List ToyboxRepoConfig}
    (hnd : (l.map (fun r => r.name)).Nodup) {a b : ToyboxRepoConfig}
    (ha : a ∈ l) (hb : b ∈ l) (he : a.name = b.name) : a = b :=
  List.inj_on_of_nodup_map hnd ha hb he

theorem mem_setHeadActive {L : List ToyboxRepoConfig} {r2 : ToyboxRepoConfig}
    (h : r2 ∈ setHeadActive L) :
    ∃ r ∈ L, r2.name = r.name ∧ r2.lastUsedAt = r.lastUsedAt := by
  cases L with
  | nil => simp [setHeadActive] at h
  | cons x xs =>
      simp only [setHeadActive] at h
      rcases List.mem_cons.mp h with h1 | h1
      · refine ⟨x, List.mem_cons_self x xs, ?_, ?_⟩
        · rw [h1]
        · rw [h1]
      · exact ⟨r2, List.mem_cons_of_mem x h1, rfl, rfl⟩

/-- Every record of the array produced by `upsertRepoList` either has
`lastUsedAt` stamped to now or is an untouched original. -/
theorem upsertRepoList_origin (repo : ToyboxRepoConfig) (t : Nat)
    (l : List ToyboxRepoConfig) :
    ∀ r2 ∈ upsertRepoList repo t l, r2.lastUsedAt = t ∨ r2 ∈ l := by
  intro r2 h
  unfold upsertRepoList at h
  by_cases hex : l.any (fun r => r.name == repo.name) = true
  · rw [if_pos hex] at h
    rcases mem_updateFirst h with h1 | ⟨x, _, _, he⟩
    · exact Or.inr h1
    · left
      rw [he]
      rfl
  · rw [if_neg hex] at h
    rcases List.mem_append.mp h with h1 | h1
    · exact Or.inr h1
    · left
      simp at h1
      rw [h1]

/-- Claim C8, counterexample to the statement as written:
`upsertRepository` of an existing name overwrites the stored
`createdAt` with the caller-supplied one (the object spread puts
`repo.createdAt` over the old record), so upserting alpha with
`createdAt = 0` over a stored record with `createdAt = 1` rolls the
timestamp back while the record stays present under the same name. -/
theorem upsert_rolls_back_createdAt :
    twoRepoDoc.repositories.map (fun r => r.createdAt) = [1, 2] ∧
      (upsertRepo rollbackUpsertArg 9 twoRepoDoc).repositories.map
          (fun r => r.name) = ["alpha", "beta"] ∧
        (upsertRepo rollbackUpsertArg 9 twoRepoDoc).repositories.map
          (fun r => r.createdAt) = [0, 2] := by
  refine ⟨by decide, by decide, by decide⟩

/-- Claim C8 (amended): under a monotone clock (call time at least
every stored `lastUsedAt`) and unique names, for every record present
both before and after the call, `lastUsedAt` never decreases across
`upsertRepository`, `setActiveRepository`, `touchRepository` and
`updateRepository`; `createdAt` is unchanged by `setActiveRepository`
and `touchRepository`, and by `updateRepository` when the update object
does not carry `name` or `createdAt` fields.  (`upsertRepository` and a
`createdAt`-carrying `updateRepository` install the caller-supplied
`createdAt` verbatim, which may be earlier — hence the
counterexample.) -/
theorem registry_timestamps_monotone (c : ToyboxConfig) (t : Nat)
    (hnd : (repoNames c).Nodup)
    (ht : ∀ r ∈ c.repositories, r.lastUsedAt ≤ t) :
    (∀ repo, ∀ r2 ∈ (upsertRepo repo t c).repositories,
      ∀ r1 ∈ c.repositories, r1.name = r2.name →
        r1.lastUsedAt ≤ r2.lastUsedAt) ∧
    (∀ n c2, setActiveRepo n c = Except.ok c2 →
      ∀ r2 ∈ c2.repositories, ∀ r1 ∈ c.repositories, r1.name = r2.name →
        r1.lastUsedAt ≤ r2.lastUsedAt ∧ r1.createdAt = r2.createdAt) ∧
    (∀ n, ∀ r2 ∈ (touchRepo n t c).repositories,
      ∀ r1 ∈ c.repositories, r1.name = r2.name →
        r1.lastUsedAt ≤ r2.lastUsedAt ∧ r1.createdAt = r2.createdAt) ∧
    (∀ n u, u.name = none → u.createdAt = none →
      ∀ r2 ∈ (updateRepoFields n u t c).repositories,
      ∀ r1 ∈ c.repositories, r1.name = r2.name →
        r1.lastUsedAt ≤ r2.lastUsedAt ∧ r1.createdAt = r2.createdAt) := by
  refine ⟨?_, ?_, ?_, ?_⟩
  · intro repo r2 h2 r1 h1 hname
    unfold upsertRepo at h2
    by_cases hlen : ((upsertRepoList repo t c.repositories).length == 1) = true
    · rw [if_pos hlen] at h2
      obtain ⟨r3, h3, hn3, hl3⟩ := mem_setHeadActive h2
      rcases upsertRepoList_origin repo t c.repositories r3 h3 with hT | hmem
      · rw [hl3, hT]
        exact ht r1 h1
      · have he : r1 = r3 := repo_name_inj hnd h1 hmem (hname.trans hn3)
        rw [hl3, ← he]
    · rw [if_neg hlen] at h2
      rcases upsertRepoList_origin repo t c.repositories r2 h2 with hT | hmem
      · rw [hT]
        exact ht r1 h1
      · have he : r1 = r2 := repo_name_inj hnd h1 hmem hname
        rw [he]
  · intro n c2 hok r2 h2 r1 h1 hname
    unfold setActiveRepo at hok
    by_cases hex : c.repositories.any (fun r => r.name == n) = true
    · rw [if_pos hex] at hok
      injection hok with hok
      rw [← hok] at h2
      rcases List.mem_map.mp h2 with ⟨x, hx, he⟩
      have hnx : r2.name = x.name := by rw [← he]
      have he1 : r1 = x := repo_name_inj hnd h1 hx (hname.trans hnx)
      rw [he1, ← he]
      exact ⟨Nat.le_refl _, rfl⟩
    · rw [if_neg hex] at hok
      exact absurd hok (by simp)
  · intro n r2 h2 r1 h1 hname
    unfold touchRepo at h2
    rcases mem_updateFirst h2 with hmem | ⟨x, hx, _, he⟩
    · have he1 : r1 = r2 := repo_name_inj hnd h1 hmem hname
      rw [he1]
      exact ⟨Nat.le_refl _, rfl⟩
    · have hnx : r2.name = x.name := by rw [he]
      have he1 : r1 = x := repo_name_inj hnd h1 hx (hname.trans hnx)
      rw [he1, he]
      exact ⟨ht x hx, rfl⟩
  · intro n u hu1 hu2 r2 h2 r1 h1 hname
    unfold updateRepoFields at h2
    rcases mem_updateFirst h2 with hmem | ⟨x, hx, _, he⟩
    · have he1 : r1 = r2 := repo_name_inj hnd h1 hmem hname
      rw [he1]
      exact ⟨Nat.le_refl _, rfl⟩
    · have hnx : r2.name = x.name := by
        rw [he]
        show (applyRepoUpdate x u t).name = x.name
        unfold applyRepoUpdate
        rw [hu1]
        rfl
      have he1 : r1 = x := repo_name_inj hnd h1 hx (hname.trans hnx)
      constructor
      · rw [he1, he]
        show x.lastUsedAt ≤ (applyRepoUpdate x u t).lastUsedAt
        unfold applyRepoUpdate
        exact ht x hx
      · rw [he1, he]
        show x.createdAt = (applyRepoUpdate x u t).createdAt
        unfold applyRepoUpdate
        rw [hu2]
        rfl

theorem registry_timestamps_monotone_witness :
    (repoNames twoRepoDoc).Nodup ∧
      (∀ r ∈ twoRepoDoc.repositories, r.lastUsedAt ≤ 10) ∧
      alphaRec.lastUsedAt ≤ ({ alphaRec with lastUsedAt := 10 }).lastUsedAt ∧
        alphaRec.createdAt = ({ alphaRec with lastUsedAt := 10 }).createdAt :=
  ⟨by decide, by decide,
    (registry_timestamps_monotone twoRepoDoc 10 (by decide) (by decide)).2.2.1
      "alpha" { alphaRec with lastUsedAt := 10 } (by decide)
      alphaRec (by decide) (by decide)⟩

end Toybox
